import Mathlib

/-!
Verification of the request-handling core of the translator service
(`libretranslate/app.py`): translatability classification, alternative
deduplication, the batch translation orchestrator, request parsing and
the quota rule builder, each embedded shallowly from the Python source.

Python machine details are modelled as follows: text is Lean `String`
(Python iterates unicode code points; `Char.toNat` is `ord`), Python
floats arising here (`0.75 ** (n-1)`, multipliers) are modelled as exact
rationals, and Python `int(...)` truncation toward zero on a rational is
`py_int`.  Fallible code returns `Except`; an uncaught Python exception
inside the `/translate` handler's `try` block is a value of `PyExc`.
-/

/-- The `emojis` dict of `app.py` (lines 13-24): membership of a code point
in the decorative set.  Python `range(a, b)` excludes `b`, hence the strict
upper bounds. -/
def emojis (c : Nat) : Bool :=
  (c == 32) ||
  (0x1F600 ≤ c && c < 0x1F64F) ||
  (0x1F300 ≤ c && c < 0x1F5FF) ||
  (0x1F680 ≤ c && c < 0x1F6FF) ||
  (0x2600 ≤ c && c < 0x26FF) ||
  (0x2700 ≤ c && c < 0x27BF) ||
  (0xFE00 ≤ c && c < 0xFE0F) ||
  (0x1F900 ≤ c && c < 0x1F9FF) ||
  (0x1F1E6 ≤ c && c < 0x1F1FF) ||
  (0x20D0 ≤ c && c < 0x20FF)

/-- Python `detect_translatable` (lines 145-154) on a single string: true iff some
character has `ord ch ∉ emojis`. -/
def detect_translatable_text (s : String) : Bool :=
  s.data.any (fun ch => !(emojis ch.toNat))

/-- Python `detect_translatable` (lines 145-154) on a list of segments:
`any(detect_translatable(t) for t in src_texts)`. -/
def detect_translatable (ts : List String) : Bool :=
  ts.any detect_translatable_text

/-- Helper for `filter_unique`: walk the sequence with the running `seen`
set (modelled as a list), keeping an element iff unseen and then adding it
to `seen`, exactly as the Python list comprehension with `seen_add` does. -/
def filterUniqueAux : List String → List String → List String
  | [], _ => []
  | x :: xs, seen =>
    if x ∈ seen then filterUniqueAux xs seen
    else x :: filterUniqueAux xs (x :: seen)

/-- Python `filter_unique(seq, extra)` (lines 139-142): dedup preserving first-seen
order, with `extra` and the empty string pre-seeded into `seen`. -/
def filter_unique (seq : List String) (extra : String) : List String :=
  filterUniqueAux seq [extra, ""]

lemma filterUniqueAux_sublist : ∀ (l seen : List String),
    (filterUniqueAux l seen).Sublist l := by
  intro l
  induction l with
  | nil => intro seen; simp [filterUniqueAux]
  | cons x xs ih =>
    intro seen
    simp only [filterUniqueAux]
    by_cases hx : x ∈ seen
    · simp only [if_pos hx]
      exact (ih seen).trans (List.sublist_cons_self x xs)
    · simp only [if_neg hx]
      exact List.Sublist.cons₂ x (ih (x :: seen))

lemma filterUniqueAux_not_mem_seen : ∀ (l seen : List String) (y : String),
    y ∈ filterUniqueAux l seen → y ∉ seen := by
  intro l
  induction l with
  | nil => intro seen y h; simp [filterUniqueAux] at h
  | cons x xs ih =>
    intro seen y h
    simp only [filterUniqueAux] at h
    by_cases hx : x ∈ seen
    · rw [if_pos hx] at h
      exact ih seen y h
    · rw [if_neg hx] at h
      rcases List.mem_cons.mp h with h1 | h2
      · subst h1; exact hx
      · intro hy
        exact ih (x :: seen) y h2 (List.mem_cons_of_mem x hy)

lemma filterUniqueAux_nodup : ∀ (l seen : List String),
    (filterUniqueAux l seen).Nodup := by
  intro l
  induction l with
  | nil => intro seen; simp [filterUniqueAux]
  | cons x xs ih =>
    intro seen
    simp only [filterUniqueAux]
    by_cases hx : x ∈ seen
    · rw [if_pos hx]; exact ih seen
    · rw [if_neg hx]
      refine List.nodup_cons.mpr ⟨?_, ih (x :: seen)⟩
      intro hmem
      exact filterUniqueAux_not_mem_seen xs (x :: seen) x hmem (List.mem_cons_self x seen)

lemma filter_unique_sublist (seq : List String) (extra : String) :
    (filter_unique seq extra).Sublist seq :=
  filterUniqueAux_sublist seq [extra, ""]

lemma filter_unique_nodup (seq : List String) (extra : String) :
    (filter_unique seq extra).Nodup :=
  filterUniqueAux_nodup seq [extra, ""]

lemma filter_unique_length_le (seq : List String) (extra : String) :
    (filter_unique seq extra).length ≤ seq.length :=
  (filter_unique_sublist seq extra).length_le

lemma filter_unique_extra_not_mem (seq : List String) (extra : String) :
    extra ∉ filter_unique seq extra := by
  intro h
  exact filterUniqueAux_not_mem_seen seq [extra, ""] extra h (by simp)

lemma filter_unique_empty_not_mem (seq : List String) (extra : String) :
    "" ∉ filter_unique seq extra := by
  intro h
  exact filterUniqueAux_not_mem_seen seq [extra, ""] "" h (by simp)

/-- C2: the translatability classifier returns false on every text made
solely of decorative code points (including the empty string and the empty
segment list), returns true on any text containing a character outside the
decorative set, and on a list of segments returns true iff some segment is
translatable. -/
theorem detect_translatable_correct :
    (∀ s : String, (∀ c ∈ s.data, emojis c.toNat = true) →
        detect_translatable_text s = false)
    ∧ detect_translatable_text ("") = false
    ∧ detect_translatable [] = false
    ∧ (∀ s : String, (∃ c ∈ s.data, emojis c.toNat = false) →
        detect_translatable_text s = true)
    ∧ (∀ ts : List String,
        detect_translatable ts = true ↔ ∃ s ∈ ts, detect_translatable_text s = true) := by
  refine ⟨?_, ?_, ?_, ?_, ?_⟩
  · intro s h
    simp only [detect_translatable_text, List.any_eq_false]
    intro c hc
    simp [h c hc]
  · rfl
  · rfl
  · intro s h
    rcases h with ⟨c, hc, hemo⟩
    simp only [detect_translatable_text, List.any_eq_true]
    exact ⟨c, hc, by simp [hemo]⟩
  · intro ts
    simp [detect_translatable, List.any_eq_true]

/-- Witness for C2: an emoji-only string (U+1F600) is classified
non-translatable, and a plain letter string is translatable. -/
theorem detect_translatable_correct_witness :
    ((∀ c ∈ (String.mk [Char.ofNat 0x1F600]).data, emojis c.toNat = true)
      ∧ detect_translatable_text (String.mk [Char.ofNat 0x1F600]) = false)
    ∧ ((∃ c ∈ ("a" : String).data, emojis c.toNat = false)
      ∧ detect_translatable_text ("a") = true) :=
  ⟨⟨by decide, detect_translatable_correct.1 _ (by decide)⟩,
   ⟨by decide, detect_translatable_correct.2.2.2.1 ("a") (by decide)⟩⟩

/-- A language from the registry (read-only, the `Language` class of the
argos package): ISO code and display name. -/
structure Lang where
  code : String
  name : String
deriving DecidableEq

/-- A translator capability: `translator.hypotheses(text, count)` yields the
hypothesis values (primary first) or raises, modelled as `Except`. -/
abbrev Translator := String → Nat → Except String (List String)

/-- The external collaborators of the `/translate` handler: the language
registry, `src_lang.get_translation(tgt_lang)`, and the text-formatting
utilities `improve_translation_formatting` and `html.unescape`. -/
structure Ctx where
  languages : List Lang
  get_translation : Lang → Lang → Option Translator
  improve_translation_formatting : String → String → String
  unescape : String → String

/-- A Python exception raised inside the handler's `try` block: an
`abort(status, description)` HTTPException, an engine exception, or the
IndexError from `hypotheses[0]` on an empty hypothesis list. -/
inductive PyExc where
  | http (status : Nat) (description : String)
  | engine (msg : String)
  | indexError
deriving DecidableEq

/-- Python `str(e)` for the exceptions that can occur inside the `try`
block.  The only `abort` status used there is 400, whose HTTPException
renders as `400 Bad Request: description`. -/
def strExc : PyExc → String
  | .http _ d => "400 Bad Request: " ++ d
  | .engine m => m
  | .indexError => "list index out of range"

/-- The `target` parameter after `iso2model`: a single code or a list. -/
inductive TargetSpec where
  | one (code : String)
  | many (codes : List String)

/-- Lines 424-428: the validated target list, filtered from the registry. -/
def targets_of (langs : List Lang) : TargetSpec → List Lang
  | .one t => langs.filter (fun l => l.code == t)
  | .many ts => langs.filter (fun l => ts.contains l.code)

/-- Python `str` of a list of strings, as interpolated by the f-string of
the line-431 abort message. -/
def pyStrList (ts : List String) : String :=
  "[" ++ String.intercalate (", ") (ts.map (fun s => "\x27" ++ s ++ "\x27")) ++ "]"

/-- The `target_lang` value as rendered in the line-431 abort message. -/
def target_str : TargetSpec → String
  | .one t => t
  | .many ts => pyStrList ts

/-- Line 444: `unescape(improve_translation_formatting(text, value))`. -/
def reformat (C : Ctx) (text h : String) : String :=
  C.unescape (C.improve_translation_formatting text h)

/-- Line 445: the reformatted hypotheses 1..len-1, before deduplication. -/
def reformat_alts (C : Ctx) (text : String) (rest : List String) : List String :=
  rest.map (reformat C text)

/-- Lines 438-451, one (target, segment) step: resolve the translator
(absence aborts 400 inside the try), then if translatable call
`hypotheses(text, num_alternatives + 1)` and produce the reformatted
primary and the deduplicated alternatives; otherwise pass the text through.
The second component counts engine (`hypotheses`) calls. -/
def process_segment (C : Ctx) (src tgt : Lang) (translatable : Bool)
    (nalt : Nat) (text : String) :
    Except PyExc (String × List String) × Nat :=
  match C.get_translation src tgt with
  | none =>
    (.error (.http 400 (tgt.name ++ "s (" ++ tgt.code ++
      "s) is not available as a target language from " ++ src.name ++
      "s (" ++ src.code ++ "s)")), 0)
  | some tr =>
    if translatable then
      match tr text (nalt + 1) with
      | .error m => (.error (.engine m), 1)
      | .ok [] => (.error .indexError, 1)
      | .ok (h0 :: rest) =>
        let tt := reformat C text h0
        (.ok (tt, filter_unique (reformat_alts C text rest) tt), 1)
    else
      (.ok (text, []), 0)

/-- The inner loop of lines 437-451: fold `process_segment` over the input
segments for one target, collecting the per-segment translations and
alternative lists in order; the first exception aborts. -/
def process_target (C : Ctx) (src tgt : Lang) (translatable : Bool)
    (nalt : Nat) :
    List String → Except PyExc (List String × List (List String)) × Nat
  | [] => (.ok ([], []), 0)
  | text :: rest =>
    match process_segment C src tgt translatable nalt text with
    | (.error e, c) => (.error e, c)
    | (.ok (tt, alts), c) =>
      match process_target C src tgt translatable nalt rest with
      | (.error e, c2) => (.error e, c + c2)
      | (.ok (outs, altss), c2) => (.ok (tt :: outs, alts :: altss), c + c2)

/-- Python dict assignment `batch_results[k] = v`: replace in place when the
key exists (insertion order kept), append otherwise. -/
def dset (d : List (String × List String)) (k : String) (v : List String) :
    List (String × List String) :=
  if ∃ p ∈ d, p.1 = k then
    d.map (fun p => if p.1 = k then (k, v) else p)
  else d ++ [(k, v)]

/-- The outer loop of lines 435-451 over the validated targets, threading
the `batch_results` dict, the flat `batch_alternatives` list and the engine
call count. -/
def run_targets (C : Ctx) (src : Lang) (translatable : Bool) (nalt : Nat)
    (texts : List String) :
    List Lang → List (String × List String) → List (List String) → Nat →
    Except PyExc (List (String × List String) × List (List String)) × Nat
  | [], d, altacc, c => (.ok (d, altacc), c)
  | tgt :: rest, d, altacc, c =>
    match process_target C src tgt translatable nalt texts with
    | (.error e, c1) => (.error e, c + c1)
    | (.ok (outs, altss), c1) =>
      run_targets C src translatable nalt texts rest
        (dset d tgt.code outs) (altacc ++ altss) (c + c1)

/-- Lines 412-416: the detected-source record; non-translatable input is
pinned to English with confidence 0, translatable input echoes the
requested code with confidence 100. -/
def detected_of (translatable : Bool) (source_lang : String) : String × Rat :=
  if translatable then (source_lang, 100) else ("en", 0)

/-- The observable outcome of a successful `/translate` call: the
`batch_results` dict behind `translatedText`, plus the computed
`batch_alternatives` and `detected_src_lang` locals. -/
structure TransOk where
  translatedText : List (String × List String)
  batch_alternatives : List (List String)
  detectedLanguage : String × Rat
deriving DecidableEq

/-- Lines 405-458 of the `/translate` handler, after parameter parsing:
classify translatability, resolve the (possibly substituted) source
language from the registry (failure aborts 400 outside the `try`), filter
the targets, run the batch loop, and wrap any exception of the `try` block
— including the 400 aborts raised inside it — into the
`abort(500, "Cannot translate text: ...")` of the `except` clause.  The
second component counts engine calls. -/
def translate_core (C : Ctx) (source_lang : String) (target_lang : TargetSpec)
    (src_texts : List String) (num_alternatives : Nat) :
    Except (Nat × String) TransOk × Nat :=
  let translatable := detect_translatable src_texts
  let detected := detected_of translatable source_lang
  match C.languages.find? (fun l => l.code == detected.1) with
  | none => (.error (400, source_lang ++ "s is not supported"), 0)
  | some src_lang =>
    let targets := targets_of C.languages target_lang
    let inner : Except PyExc TransOk × Nat :=
      if targets.isEmpty then
        (.error (.http 400 (target_str target_lang ++ "s is not supported")), 0)
      else
        match run_targets C src_lang translatable num_alternatives src_texts
            targets [] [] 0 with
        | (.error e, c) => (.error e, c)
        | (.ok (d, altss), c) => (.ok ⟨d, altss, detected⟩, c)
    match inner with
    | (.ok r, c) => (.ok r, c)
    | (.error e, c) => (.error (500, "Cannot translate text: " ++ strExc e ++ "s"), c)

lemma dset_mem {d : List (String × List String)} {k : String} {v : List String}
    {p : String × List String} (hp : p ∈ dset d k v) : p ∈ d ∨ p = (k, v) := by
  unfold dset at hp
  split at hp
  · rcases List.mem_map.mp hp with ⟨q, hq, hqe⟩
    by_cases h : q.1 = k
    · right; rw [if_pos h] at hqe; exact hqe.symm
    · left; rw [if_neg h] at hqe; exact hqe ▸ hq
  · rcases List.mem_append.mp hp with h | h
    · exact Or.inl h
    · exact Or.inr (List.mem_singleton.mp h)

lemma dset_self {d : List (String × List String)} {k : String} {v : List String} :
    (k, v) ∈ dset d k v := by
  unfold dset
  split
  · rename_i h
    rcases h with ⟨q, hq, hqk⟩
    refine List.mem_map.mpr ⟨q, hq, ?_⟩
    rw [if_pos hqk]
  · exact List.mem_append.mpr (Or.inr (List.mem_singleton.mpr rfl))

lemma dset_fresh {d : List (String × List String)} {k : String} {v : List String}
    (h : ∀ p ∈ d, p.1 ≠ k) : dset d k v = d ++ [(k, v)] := by
  unfold dset
  rw [if_neg]
  rintro ⟨q, hq, hqk⟩
  exact h q hq hqk

lemma dset_preserve_const {d : List (String × List String)} {k k0 : String}
    {texts : List String} (hm : (k0, texts) ∈ d) :
    (k0, texts) ∈ dset d k texts := by
  unfold dset
  split
  · by_cases h : k0 = k
    · subst h
      refine List.mem_map.mpr ⟨(k0, texts), hm, ?_⟩
      rw [if_pos rfl]
    · refine List.mem_map.mpr ⟨(k0, texts), hm, ?_⟩
      rw [if_neg h]
  · exact List.mem_append.mpr (Or.inl hm)

lemma dset_keys {d : List (String × List String)} {k : String} {v : List String}
    {p : String × List String} (hp : p ∈ d) (hk : p.1 ≠ k) : p ∈ dset d k v := by
  unfold dset
  split
  · refine List.mem_map.mpr ⟨p, hp, ?_⟩
    rw [if_neg hk]
  · exact List.mem_append.mpr (Or.inl hp)

lemma process_segment_none {C : Ctx} {src tgt : Lang} {b : Bool} {nalt : Nat}
    {text : String} (h : C.get_translation src tgt = none) :
    process_segment C src tgt b nalt text
      = (.error (.http 400 (tgt.name ++ "s (" ++ tgt.code ++
          "s) is not available as a target language from " ++ src.name ++
          "s (" ++ src.code ++ "s)")), 0) := by
  unfold process_segment
  rw [h]

lemma process_segment_false_ok {C : Ctx} {src tgt : Lang} {nalt : Nat}
    {text : String} {tr : Translator} (h : C.get_translation src tgt = some tr) :
    process_segment C src tgt false nalt text = (.ok (text, []), 0) := by
  unfold process_segment
  rw [h]
  simp

lemma process_segment_false_count (C : Ctx) (src tgt : Lang) (nalt : Nat)
    (text : String) :
    (process_segment C src tgt false nalt text).2 = 0 := by
  unfold process_segment
  cases h : C.get_translation src tgt <;> simp

lemma process_target_ok_len {C : Ctx} {src tgt : Lang} {b : Bool} {nalt : Nat} :
    ∀ {texts outs : List String} {altss : List (List String)} {c : Nat},
      process_target C src tgt b nalt texts = (.ok (outs, altss), c) →
      outs.length = texts.length ∧ altss.length = texts.length := by
  intro texts
  induction texts with
  | nil =>
    intro outs altss c h
    simp only [process_target, Prod.mk.injEq, Except.ok.injEq] at h
    rcases h with ⟨⟨h1, h2⟩, _⟩
    simp [← h1, ← h2]
  | cons text rest ih =>
    intro outs altss c h
    simp only [process_target] at h
    split at h
    · exact absurd h (by simp)
    · rename_i tt alts cs heq
      split at h
      · exact absurd h (by simp)
      · rename_i outs2 altss2 c2 heq2
        simp only [Prod.mk.injEq, Except.ok.injEq] at h
        rcases h with ⟨⟨h1, h2⟩, _⟩
        rcases ih heq2 with ⟨hl1, hl2⟩
        simp [← h1, ← h2, hl1, hl2]

lemma process_target_ok_seg {C : Ctx} {src tgt : Lang} {b : Bool} {nalt : Nat} :
    ∀ {texts outs : List String} {altss : List (List String)} {c : Nat},
      process_target C src tgt b nalt texts = (.ok (outs, altss), c) →
      ∀ i (h1 : i < outs.length) (h2 : i < texts.length) (h3 : i < altss.length),
        ∃ cseg, process_segment C src tgt b nalt (texts.get ⟨i, h2⟩)
          = (.ok (outs.get ⟨i, h1⟩, altss.get ⟨i, h3⟩), cseg) := by
  intro texts
  induction texts with
  | nil =>
    intro outs altss c _ i _ h2 _
    exact absurd h2 (by simp)
  | cons text rest ih =>
    intro outs altss c h i h1 h2 h3
    simp only [process_target] at h
    split at h
    · exact absurd h (by simp)
    · rename_i tt alts cs heq
      split at h
      · exact absurd h (by simp)
      · rename_i outs2 altss2 c2 heq2
        simp only [Prod.mk.injEq, Except.ok.injEq] at h
        rcases h with ⟨⟨hout, halt⟩, _⟩
        subst hout
        subst halt
        match i with
        | 0 => exact ⟨cs, by simpa using heq⟩
        | i + 1 =>
          exact ih heq2 i (by simpa using h1) (by simpa using h2) (by simpa using h3)

lemma process_target_ok_all_seg {C : Ctx} {src tgt : Lang} {b : Bool} {nalt : Nat}
    {texts outs : List String} {altss : List (List String)} {c : Nat}
    (h : process_target C src tgt b nalt texts = (.ok (outs, altss), c)) :
    ∀ text ∈ texts, ∃ tt alts cseg,
      process_segment C src tgt b nalt text = (.ok (tt, alts), cseg) := by
  intro text htext
  rcases List.mem_iff_get.mp htext with ⟨⟨i, h2⟩, rfl⟩
  rcases process_target_ok_len h with ⟨hl1, hl2⟩
  rcases process_target_ok_seg h i (by omega) h2 (by omega) with ⟨cseg, hseg⟩
  exact ⟨_, _, cseg, hseg⟩

lemma process_target_ok_alts_mem {C : Ctx} {src tgt : Lang} {b : Bool} {nalt : Nat}
    {texts outs : List String} {altss : List (List String)} {c : Nat}
    (h : process_target C src tgt b nalt texts = (.ok (outs, altss), c)) :
    ∀ a ∈ altss, ∃ text ∈ texts, ∃ tt cseg,
      process_segment C src tgt b nalt text = (.ok (tt, a), cseg) := by
  intro a ha
  rcases List.mem_iff_get.mp ha with ⟨⟨i, h3⟩, rfl⟩
  rcases process_target_ok_len h with ⟨hl1, hl2⟩
  rcases process_target_ok_seg h i (by omega) (by omega) h3 with ⟨cseg, hseg⟩
  exact ⟨_, List.get_mem _ _ _, _, cseg, hseg⟩

lemma process_target_false_ok {C : Ctx} {src tgt : Lang} {nalt : Nat} :
    ∀ {texts outs : List String} {altss : List (List String)} {c : Nat},
      process_target C src tgt false nalt texts = (.ok (outs, altss), c) →
      outs = texts ∧ c = 0 := by
  intro texts
  induction texts with
  | nil =>
    intro outs altss c h
    simp only [process_target, Prod.mk.injEq, Except.ok.injEq] at h
    rcases h with ⟨⟨h1, _⟩, h3⟩
    exact ⟨h1.symm, h3.symm⟩
  | cons text rest ih =>
    intro outs altss c h
    simp only [process_target] at h
    split at h
    · exact absurd h (by simp)
    · rename_i tt alts cs heq
      split at h
      · exact absurd h (by simp)
      · rename_i outs2 altss2 c2 heq2
        simp only [Prod.mk.injEq, Except.ok.injEq] at h
        rcases h with ⟨⟨h1, _⟩, h3⟩
        rcases ih heq2 with ⟨hrest, hc2⟩
        have hcs : (process_segment C src tgt false nalt text).2 = 0 :=
          process_segment_false_count C src tgt nalt text
        rw [heq] at hcs
        have htt : tt = text := by
          rcases hgt : C.get_translation src tgt with _ | tr
          · rw [process_segment_none hgt] at heq; exact absurd heq (by simp)
          · rw [process_segment_false_ok hgt] at heq
            simp only [Prod.mk.injEq, Except.ok.injEq] at heq
            exact heq.1.1.symm
        subst htt
        refine ⟨by rw [← h1, hrest], ?_⟩
        simp only at hcs
        omega

lemma process_target_false_count (C : Ctx) (src tgt : Lang) (nalt : Nat)
    (texts : List String) :
    (process_target C src tgt false nalt texts).2 = 0 := by
  induction texts with
  | nil => simp [process_target]
  | cons text rest ih =>
    simp only [process_target]
    have hcs := process_segment_false_count C src tgt nalt text
    split
    · rename_i e c heq
      rw [heq] at hcs
      simpa using hcs
    · rename_i tt alts cs heq
      rw [heq] at hcs
      simp only at hcs
      split
      · rename_i e c2 heq2
        rw [heq2] at ih
        simp only at ih
        simp [hcs, ih]
      · rename_i outs altss c2 heq2
        rw [heq2] at ih
        simp only at ih
        simp [hcs, ih]

lemma process_target_error_of_seg {C : Ctx} {src tgt : Lang} {b : Bool} {nalt : Nat} :
    ∀ {texts : List String},
      (∃ text ∈ texts, ∃ e cseg,
        process_segment C src tgt b nalt text = (.error e, cseg)) →
      ∃ e c, process_target C src tgt b nalt texts = (.error e, c) := by
  intro texts
  induction texts with
  | nil =>
    rintro ⟨text, htext, _⟩
    exact absurd htext (by simp)
  | cons text rest ih =>
    rintro ⟨t0, ht0, e0, cseg0, hfail⟩
    rcases hseg : process_segment C src tgt b nalt text with ⟨res, cs⟩
    cases res with
    | error e =>
      refine ⟨e, cs, ?_⟩
      simp only [process_target]
      rw [hseg]
    | ok pr =>
      have ht0' : t0 ∈ rest := by
        rcases List.mem_cons.mp ht0 with h | h
        · subst h
          rw [hseg] at hfail
          exact absurd hfail (by simp)
        · exact h
      rcases ih ⟨t0, ht0', e0, cseg0, hfail⟩ with ⟨e, c, hrest⟩
      rcases pr with ⟨tt, alts⟩
      refine ⟨e, cs + c, ?_⟩
      simp only [process_target]
      rw [hseg, hrest]

lemma run_targets_ok_all {C : Ctx} {src : Lang} {b : Bool} {nalt : Nat}
    {texts : List String} :
    ∀ {targets : List Lang} {d dd : List (String × List String)}
      {altacc aa : List (List String)} {c cc : Nat},
      run_targets C src b nalt texts targets d altacc c = (.ok (dd, aa), cc) →
      ∀ t ∈ targets, ∃ outs altss c1,
        process_target C src t b nalt texts = (.ok (outs, altss), c1) := by
  intro targets
  induction targets with
  | nil =>
    intro d dd altacc aa c cc _ t ht
    exact absurd ht (by simp)
  | cons tgt rest ih =>
    intro d dd altacc aa c cc h t ht
    simp only [run_targets] at h
    split at h
    · exact absurd h (by simp)
    · rename_i outs altss c1 heq
      rcases List.mem_cons.mp ht with h1 | h1
      · subst h1
        exact ⟨outs, altss, c1, heq⟩
      · exact ih h t h1

lemma run_targets_ok_entries {C : Ctx} {src : Lang} {b : Bool} {nalt : Nat}
    {texts : List String} :
    ∀ {targets : List Lang} {d dd : List (String × List String)}
      {altacc aa : List (List String)} {c cc : Nat},
      run_targets C src b nalt texts targets d altacc c = (.ok (dd, aa), cc) →
      ∀ p ∈ dd, p ∈ d ∨ ∃ t ∈ targets, p.1 = t.code ∧ ∃ altss c1,
        process_target C src t b nalt texts = (.ok (p.2, altss), c1) := by
  intro targets
  induction targets with
  | nil =>
    intro d dd altacc aa c cc h p hp
    simp only [run_targets, Prod.mk.injEq, Except.ok.injEq] at h
    rcases h with ⟨⟨h1, _⟩, _⟩
    exact Or.inl (h1 ▸ hp)
  | cons tgt rest ih =>
    intro d dd altacc aa c cc h p hp
    simp only [run_targets] at h
    split at h
    · exact absurd h (by simp)
    · rename_i outs altss c1 heq
      rcases ih h p hp with h1 | ⟨t, ht, he, altss2, c2, hpt⟩
      · rcases dset_mem h1 with h2 | h2
        · exact Or.inl h2
        · subst h2
          exact Or.inr ⟨tgt, by simp, rfl, altss, c1, heq⟩
      · exact Or.inr ⟨t, by simp [ht], he, altss2, c2, hpt⟩

lemma run_targets_ok_alts {C : Ctx} {src : Lang} {b : Bool} {nalt : Nat}
    {texts : List String} :
    ∀ {targets : List Lang} {d dd : List (String × List String)}
      {altacc aa : List (List String)} {c cc : Nat},
      run_targets C src b nalt texts targets d altacc c = (.ok (dd, aa), cc) →
      ∀ a ∈ aa, a ∈ altacc ∨ ∃ t ∈ targets, ∃ outs altss c1,
        process_target C src t b nalt texts = (.ok (outs, altss), c1) ∧ a ∈ altss := by
  intro targets
  induction targets with
  | nil =>
    intro d dd altacc aa c cc h a ha
    simp only [run_targets, Prod.mk.injEq, Except.ok.injEq] at h
    rcases h with ⟨⟨_, h2⟩, _⟩
    exact Or.inl (h2 ▸ ha)
  | cons tgt rest ih =>
    intro d dd altacc aa c cc h a ha
    simp only [run_targets] at h
    split at h
    · exact absurd h (by simp)
    · rename_i outs altss c1 heq
      rcases ih h a ha with h1 | ⟨t, ht, outs2, altss2, c2, hpt, hmem⟩
      · rcases List.mem_append.mp h1 with h2 | h2
        · exact Or.inl h2
        · exact Or.inr ⟨tgt, by simp, outs, altss, c1, heq, h2⟩
      · exact Or.inr ⟨t, by simp [ht], outs2, altss2, c2, hpt, hmem⟩

lemma run_targets_ok_keys {C : Ctx} {src : Lang} {b : Bool} {nalt : Nat}
    {texts : List String} :
    ∀ {targets : List Lang} {d dd : List (String × List String)}
      {altacc aa : List (List String)} {c cc : Nat},
      run_targets C src b nalt texts targets d altacc c = (.ok (dd, aa), cc) →
      (targets.map Lang.code).Nodup →
      (∀ t ∈ targets, ∀ p ∈ d, p.1 ≠ t.code) →
      dd.map Prod.fst = d.map Prod.fst ++ targets.map Lang.code := by
  intro targets
  induction targets with
  | nil =>
    intro d dd altacc aa c cc h _ _
    simp only [run_targets, Prod.mk.injEq, Except.ok.injEq] at h
    rcases h with ⟨⟨h1, _⟩, _⟩
    simp [← h1]
  | cons tgt rest ih =>
    intro d dd altacc aa c cc h hnodup hfresh
    simp only [run_targets] at h
    split at h
    · exact absurd h (by simp)
    · rename_i outs altss c1 heq
      have hfresh0 : ∀ p ∈ d, p.1 ≠ tgt.code := fun p hp => hfresh tgt (by simp) p hp
      rw [dset_fresh hfresh0] at h
      have hnodup' : (rest.map Lang.code).Nodup := (List.nodup_cons.mp hnodup).2
      have hne : tgt.code ∉ rest.map Lang.code := (List.nodup_cons.mp hnodup).1
      have hfresh' : ∀ t ∈ rest, ∀ p ∈ d ++ [(tgt.code, outs)], p.1 ≠ t.code := by
        intro t ht p hp
        rcases List.mem_append.mp hp with h1 | h1
        · exact hfresh t (by simp [ht]) p h1
        · rw [List.mem_singleton.mp h1]
          intro hcontra
          simp only at hcontra
          exact hne (hcontra ▸ List.mem_map.mpr ⟨t, ht, rfl⟩)
      have := ih h hnodup' hfresh'
      simpa using this

lemma run_targets_error_of_target {C : Ctx} {src : Lang} {b : Bool} {nalt : Nat}
    {texts : List String} :
    ∀ {targets : List Lang} {d : List (String × List String)}
      {altacc : List (List String)} {c : Nat},
      (∃ t ∈ targets, ∃ e c1,
        process_target C src t b nalt texts = (.error e, c1)) →
      ∃ e cc, run_targets C src b nalt texts targets d altacc c = (.error e, cc) := by
  intro targets
  induction targets with
  | nil =>
    rintro d altacc c ⟨t, ht, _⟩
    exact absurd ht (by simp)
  | cons tgt rest ih =>
    rintro d altacc c ⟨t0, ht0, e0, c0, hfail⟩
    rcases hpt : process_target C src tgt b nalt texts with ⟨res, cs⟩
    cases res with
    | error e =>
      refine ⟨e, c + cs, ?_⟩
      simp only [run_targets]
      rw [hpt]
    | ok pr =>
      have ht0' : t0 ∈ rest := by
        rcases List.mem_cons.mp ht0 with h | h
        · subst h
          rw [hpt] at hfail
          exact absurd hfail (by simp)
        · exact h
      rcases pr with ⟨outs, altss⟩
      rcases ih ⟨t0, ht0', e0, c0, hfail⟩ with ⟨e, cc, hrest⟩
      refine ⟨e, cc, ?_⟩
      simp only [run_targets]
      rw [hpt]
      exact hrest

lemma run_targets_false_count (C : Ctx) (src : Lang) (nalt : Nat)
    (texts : List String) :
    ∀ (targets : List Lang) (d : List (String × List String))
      (altacc : List (List String)) (c : Nat),
      (run_targets C src false nalt texts targets d altacc c).2 = c := by
  intro targets
  induction targets with
  | nil => intro d altacc c; simp [run_targets]
  | cons tgt rest ih =>
    intro d altacc c
    simp only [run_targets]
    have hc := process_target_false_count C src tgt nalt texts
    split
    · rename_i e c1 heq
      rw [heq] at hc
      simpa using hc
    · rename_i outs altss c1 heq
      rw [heq] at hc
      simp only at hc
      rw [ih]
      omega

lemma run_targets_false_ok {C : Ctx} {src : Lang} {nalt : Nat}
    {texts : List String} :
    ∀ {targets : List Lang} {d dd : List (String × List String)}
      {altacc aa : List (List String)} {c cc : Nat},
      run_targets C src false nalt texts targets d altacc c = (.ok (dd, aa), cc) →
      (∀ p ∈ d, p.2 = texts) →
      (∀ p ∈ dd, p.2 = texts)
      ∧ (∀ k, (k, texts) ∈ d → (k, texts) ∈ dd)
      ∧ (∀ t ∈ targets, (t.code, texts) ∈ dd) := by
  intro targets
  induction targets with
  | nil =>
    intro d dd altacc aa c cc h hall
    simp only [run_targets, Prod.mk.injEq, Except.ok.injEq] at h
    rcases h with ⟨⟨h1, _⟩, _⟩
    subst h1
    exact ⟨hall, fun k hk => hk, fun t ht => absurd ht (by simp)⟩
  | cons tgt rest ih =>
    intro d dd altacc aa c cc h hall
    simp only [run_targets] at h
    split at h
    · exact absurd h (by simp)
    · rename_i outs altss c1 heq
      rcases process_target_false_ok heq with ⟨houts, _⟩
      subst houts
      have hall' : ∀ p ∈ dset d tgt.code outs, p.2 = outs := by
        intro p hp
        rcases dset_mem hp with h1 | h1
        · exact hall p h1
        · rw [h1]
      rcases ih h hall' with ⟨i1, i2, i3⟩
      refine ⟨i1, ?_, ?_⟩
      · intro k hk
        exact i2 k (dset_preserve_const hk)
      · intro t ht
        rcases List.mem_cons.mp ht with h1 | h1
        · subst h1
          exact i2 t.code dset_self
        · exact i3 t h1

lemma translate_core_ok_inv {C : Ctx} {source_lang : String} {tspec : TargetSpec}
    {src_texts : List String} {nalt : Nat} {r : TransOk} {cnt : Nat}
    (h : translate_core C source_lang tspec src_texts nalt = (.ok r, cnt)) :
    ∃ srcL, C.languages.find? (fun l => l.code ==
        (detected_of (detect_translatable src_texts) source_lang).1) = some srcL
      ∧ (targets_of C.languages tspec).isEmpty = false
      ∧ run_targets C srcL (detect_translatable src_texts) nalt src_texts
          (targets_of C.languages tspec) [] [] 0
          = (.ok (r.translatedText, r.batch_alternatives), cnt)
      ∧ r.detectedLanguage = detected_of (detect_translatable src_texts) source_lang := by
  simp only [translate_core] at h
  split at h
  · exact absurd h (by simp)
  · rename_i srcL hfind
    refine ⟨srcL, hfind, ?_⟩
    split at h
    · rename_i rr cc heq
      simp only [Prod.mk.injEq, Except.ok.injEq] at h
      rcases h with ⟨h1, h2⟩
      subst h1
      subst h2
      split at heq
      · exact absurd heq (by simp)
      · rename_i hemp
        split at heq
        · exact absurd heq (by simp)
        · rename_i d altss c hrun
          simp only [Prod.mk.injEq, Except.ok.injEq] at heq
          rcases heq with ⟨h3, h4⟩
          subst h4
          refine ⟨by simpa using hemp, ?_, ?_⟩
          · rw [← h3]
            exact hrun
          · rw [← h3]
    · exact absurd h (by simp)

lemma translate_core_false_count {C : Ctx} {source_lang : String}
    {tspec : TargetSpec} {src_texts : List String} {nalt : Nat}
    (hnt : detect_translatable src_texts = false) :
    (translate_core C source_lang tspec src_texts nalt).2 = 0 := by
  simp only [translate_core, hnt]
  split
  · rfl
  · rename_i srcL hfind
    rcases hrun : run_targets C srcL false nalt src_texts
        (targets_of C.languages tspec) [] [] 0 with ⟨res, c⟩
    have hc := run_targets_false_count C srcL nalt src_texts
        (targets_of C.languages tspec) [] [] 0
    rw [hrun] at hc
    simp only at hc
    by_cases hemp : (targets_of C.languages tspec).isEmpty = true
    · rw [if_pos hemp]
    · rw [if_neg hemp]
      subst hc
      rcases res with e | pr
      · simp
      · rcases pr with ⟨d, altss⟩
        simp

/-- C1: for input whose segments are all non-translatable, no engine
(`hypotheses`) call is ever made — the call counter is 0 on every outcome —
and whenever the translate operation returns a result, every entry of
`translatedText` is the input segment list verbatim, with one entry present
for every validated target language. -/
theorem translate_nontranslatable_passthrough
    (C : Ctx) (source_lang : String) (tspec : TargetSpec)
    (src_texts : List String) (nalt : Nat)
    (hnt : detect_translatable src_texts = false) :
    (translate_core C source_lang tspec src_texts nalt).2 = 0
    ∧ ∀ r cnt, translate_core C source_lang tspec src_texts nalt = (.ok r, cnt) →
        (∀ p ∈ r.translatedText, p.2 = src_texts)
        ∧ (∀ t ∈ targets_of C.languages tspec, (t.code, src_texts) ∈ r.translatedText) := by
  refine ⟨translate_core_false_count hnt, ?_⟩
  intro r cnt h
  rcases translate_core_ok_inv h with ⟨srcL, hfind, hemp, hrun, hdet⟩
  rw [hnt] at hrun
  rcases run_targets_false_ok hrun (by simp) with ⟨i1, i2, i3⟩
  exact ⟨i1, i3⟩

/-- Concrete English registry entry used by the witnesses. -/
def wEn : Lang := ⟨"en", "English"⟩

/-- Concrete Spanish registry entry used by the witnesses. -/
def wEs : Lang := ⟨"es", "Spanish"⟩

/-- A concrete well-behaved engine: returns at most `n` hypotheses. -/
def wTr : Translator := fun _ n => .ok (["Hola", "Hola2", ""].take n)

/-- A concrete context with an en→es translator only and identity
formatting utilities. -/
def wCtx : Ctx :=
  ⟨[wEn, wEs],
   fun s t => if s.code = "en" ∧ t.code = "es" then some wTr else none,
   fun _ h => h, fun h => h⟩

/-- The U+1F600 one-character string (non-translatable). -/
def wEmoji : String := String.mk [Char.ofNat 0x1F600]

/-- Witness for C1: a concrete all-emoji request with an unrelated
requested source code. -/
theorem translate_nontranslatable_passthrough_witness :
    detect_translatable [wEmoji] = false
    ∧ ((translate_core wCtx ("fr") (.one ("es")) [wEmoji] 2).2 = 0
      ∧ ∀ r cnt, translate_core wCtx ("fr") (.one ("es")) [wEmoji] 2 = (.ok r, cnt) →
          (∀ p ∈ r.translatedText, p.2 = [wEmoji])
          ∧ (∀ t ∈ targets_of wCtx.languages (.one ("es")),
              (t.code, [wEmoji]) ∈ r.translatedText)) :=
  ⟨by decide,
   translate_nontranslatable_passthrough wCtx ("fr") (.one ("es")) [wEmoji] 2 (by decide)⟩

lemma targets_of_code_nodup {langs : List Lang}
    (h : (langs.map Lang.code).Nodup) (tspec : TargetSpec) :
    ((targets_of langs tspec).map Lang.code).Nodup := by
  have hsub : ((targets_of langs tspec).map Lang.code).Sublist (langs.map Lang.code) := by
    cases tspec <;> exact List.Sublist.map Lang.code (List.filter_sublist _)
  exact h.sublist hsub

/-- C4: on success (with a registry whose codes are distinct), the keys of
the returned batch are exactly the validated target codes in registry
order, and each per-target value has exactly one entry per input segment,
the i-th entry being the translation `process_segment` produces for the
i-th input segment. -/
theorem batch_result_shape
    (C : Ctx) (source_lang : String) (tspec : TargetSpec)
    (src_texts : List String) (nalt : Nat) (r : TransOk) (cnt : Nat)
    (hnodup : (C.languages.map Lang.code).Nodup)
    (hok : translate_core C source_lang tspec src_texts nalt = (.ok r, cnt)) :
    r.translatedText.map Prod.fst = (targets_of C.languages tspec).map Lang.code
    ∧ ∀ p ∈ r.translatedText,
        p.2.length = src_texts.length
        ∧ ∃ srcL t, C.languages.find? (fun l => l.code ==
              (detected_of (detect_translatable src_texts) source_lang).1) = some srcL
            ∧ t ∈ targets_of C.languages tspec ∧ p.1 = t.code
            ∧ ∀ i (h1 : i < p.2.length) (h2 : i < src_texts.length),
                ∃ alts cseg, process_segment C srcL t (detect_translatable src_texts)
                    nalt (src_texts.get ⟨i, h2⟩)
                  = (.ok (p.2.get ⟨i, h1⟩, alts), cseg) := by
  rcases translate_core_ok_inv hok with ⟨srcL, hfind, hemp, hrun, hdet⟩
  constructor
  · have := run_targets_ok_keys hrun (targets_of_code_nodup hnodup tspec) (by simp)
    simpa using this
  · intro p hp
    rcases run_targets_ok_entries hrun p hp with h1 | ⟨t, ht, he, altss, c1, hpt⟩
    · exact absurd h1 (by simp)
    · rcases process_target_ok_len hpt with ⟨hl1, hl2⟩
      refine ⟨hl1, srcL, t, hfind, ht, he, ?_⟩
      intro i ih1 ih2
      rcases process_target_ok_seg hpt i ih1 ih2 (by omega) with ⟨cseg, hseg⟩
      exact ⟨_, cseg, hseg⟩

/-- The concrete successful result of the witness request. -/
def wR : TransOk := ⟨[("es", ["Hola"])], [["Hola2"]], ("en", 100)⟩

/-- Witness for C4: the concrete request `["Hello"]`, source en, target es,
one alternative, against the concrete engine. -/
theorem batch_result_shape_witness :
    ((wCtx.languages.map Lang.code).Nodup
      ∧ translate_core wCtx ("en") (.one ("es")) ["Hello"] 1 = (.ok wR, 1))
    ∧ (wR.translatedText.map Prod.fst
          = (targets_of wCtx.languages (.one ("es"))).map Lang.code
      ∧ ∀ p ∈ wR.translatedText,
          p.2.length = (["Hello"] : List String).length
          ∧ ∃ srcL t, wCtx.languages.find? (fun l => l.code ==
                (detected_of (detect_translatable ["Hello"]) "en").1) = some srcL
              ∧ t ∈ targets_of wCtx.languages (.one ("es")) ∧ p.1 = t.code
              ∧ ∀ i (h1 : i < p.2.length) (h2 : i < (["Hello"] : List String).length),
                  ∃ alts cseg, process_segment wCtx srcL t
                      (detect_translatable ["Hello"]) 1
                      ((["Hello"] : List String).get ⟨i, h2⟩)
                    = (.ok (p.2.get ⟨i, h1⟩, alts), cseg)) :=
  ⟨⟨by decide, rfl⟩,
   batch_result_shape wCtx ("en") (.one ("es")) ["Hello"] 1 wR 1 (by decide) rfl⟩

/-- The `Translator.hypotheses` interface contract: at most `count`
hypotheses are returned. -/
def EngineBound (C : Ctx) : Prop :=
  ∀ l l' tr, C.get_translation l l' = some tr →
    ∀ text n hs, tr text n = .ok hs → hs.length ≤ n

lemma process_segment_ok_inv {C : Ctx} {src tgt : Lang} {b : Bool} {nalt : Nat}
    {text tt : String} {alts : List String} {c : Nat}
    (h : process_segment C src tgt b nalt text = (.ok (tt, alts), c)) :
    (tt = text ∧ alts = []) ∨
    (∃ tr h0 rest, C.get_translation src tgt = some tr
      ∧ tr text (nalt + 1) = .ok (h0 :: rest)
      ∧ tt = reformat C text h0
      ∧ alts = filter_unique (reformat_alts C text rest) tt) := by
  unfold process_segment at h
  rcases hgt : C.get_translation src tgt with _ | tr
  · rw [hgt] at h
    exact absurd h (by simp)
  · rw [hgt] at h
    cases b with
    | false =>
      simp only [Bool.false_eq_true, if_false] at h
      simp only [Prod.mk.injEq, Except.ok.injEq] at h
      exact Or.inl ⟨h.1.1.symm, h.1.2.symm⟩
    | true =>
      simp only [if_true] at h
      split at h
      · exact absurd h (by simp)
      · exact absurd h (by simp)
      · rename_i h0 rest hhyp
        simp only [Prod.mk.injEq, Except.ok.injEq] at h
        rcases h with ⟨⟨h1, h2⟩, _⟩
        exact Or.inr ⟨tr, h0, rest, rfl, hhyp, h1.symm, by rw [← h2, ← h1]⟩

/-- C3: every per-(segment, target) alternatives list produced by the
orchestrator — with an engine respecting the `hypotheses` length contract —
has at most `nalt` entries, no duplicates, never contains the empty string,
is an order-preserving sublist of the reformatted raw hypotheses it was
filtered from, and never contains its own primary translation. -/
theorem alternatives_lists_correct
    (C : Ctx) (source_lang : String) (tspec : TargetSpec)
    (src_texts : List String) (nalt : Nat) (r : TransOk) (cnt : Nat)
    (hbound : EngineBound C)
    (hok : translate_core C source_lang tspec src_texts nalt = (.ok r, cnt)) :
    ∀ a ∈ r.batch_alternatives,
      a.length ≤ nalt ∧ a.Nodup ∧ "" ∉ a
      ∧ ∃ srcL t text tt raw cseg,
          C.languages.find? (fun l => l.code ==
            (detected_of (detect_translatable src_texts) source_lang).1) = some srcL
          ∧ t ∈ targets_of C.languages tspec ∧ text ∈ src_texts
          ∧ process_segment C srcL t (detect_translatable src_texts) nalt text
              = (.ok (tt, a), cseg)
          ∧ a = filter_unique raw tt ∧ a.Sublist raw ∧ tt ∉ a := by
  intro a ha
  rcases translate_core_ok_inv hok with ⟨srcL, hfind, hemp, hrun, hdet⟩
  rcases run_targets_ok_alts hrun a ha with h1 | ⟨t, ht, outs, altss, c1, hpt, hmem⟩
  · exact absurd h1 (by simp)
  · rcases process_target_ok_alts_mem hpt a hmem with ⟨text, htext, tt, cseg, hseg⟩
    rcases process_segment_ok_inv hseg with ⟨htt, halts⟩ |
        ⟨tr, h0, rest, hgt, hhyp, htt, halts⟩
    · subst halts
      exact ⟨by simp, by simp, by simp, srcL, t, text, tt, [], cseg,
        hfind, ht, htext, hseg, rfl, by simp, by simp⟩
    · subst halts
      have hlen : (h0 :: rest).length ≤ nalt + 1 := hbound _ _ _ hgt _ _ _ hhyp
      refine ⟨?_, filter_unique_nodup _ _, filter_unique_empty_not_mem _ _,
        srcL, t, text, tt, reformat_alts C text rest, cseg, hfind, ht, htext,
        hseg, rfl, filter_unique_sublist _ _, filter_unique_extra_not_mem _ _⟩
      calc (filter_unique (reformat_alts C text rest) tt).length
          ≤ (reformat_alts C text rest).length := filter_unique_length_le _ _
        _ = rest.length := List.length_map _ _
        _ ≤ nalt := by simpa using hlen

lemma wCtx_bound : EngineBound wCtx := by
  intro l l' tr h text n hs hh
  simp only [wCtx] at h
  split at h
  · simp only [Option.some.injEq] at h
    subst h
    simp only [wTr, Except.ok.injEq] at hh
    subst hh
    exact List.length_take_le n _
  · exact absurd h (by simp)

/-- Witness for C3: the concrete request with one alternative requested. -/
theorem alternatives_lists_correct_witness :
    (EngineBound wCtx
      ∧ translate_core wCtx ("en") (.one ("es")) ["Hello"] 1 = (.ok wR, 1))
    ∧ ∀ a ∈ wR.batch_alternatives,
        a.length ≤ 1 ∧ a.Nodup ∧ "" ∉ a
        ∧ ∃ srcL t text tt raw cseg,
            wCtx.languages.find? (fun l => l.code ==
              (detected_of (detect_translatable ["Hello"]) "en").1) = some srcL
            ∧ t ∈ targets_of wCtx.languages (.one ("es"))
            ∧ text ∈ (["Hello"] : List String)
            ∧ process_segment wCtx srcL t (detect_translatable ["Hello"]) 1 text
                = (.ok (tt, a), cseg)
            ∧ a = filter_unique raw tt ∧ a.Sublist raw ∧ tt ∉ a :=
  ⟨⟨wCtx_bound, rfl⟩,
   alternatives_lists_correct wCtx ("en") (.one ("es")) ["Hello"] 1 wR 1 wCtx_bound rfl⟩

lemma translate_core_error_of_run {C : Ctx} {source_lang : String}
    {tspec : TargetSpec} {src_texts : List String} {nalt : Nat} {srcL : Lang}
    {e : PyExc} {c : Nat}
    (hfind : C.languages.find? (fun l => l.code ==
        (detected_of (detect_translatable src_texts) source_lang).1) = some srcL)
    (hemp : (targets_of C.languages tspec).isEmpty = false)
    (hrun : run_targets C srcL (detect_translatable src_texts) nalt src_texts
        (targets_of C.languages tspec) [] [] 0 = (.error e, c)) :
    translate_core C source_lang tspec src_texts nalt
      = (.error (500, "Cannot translate text: " ++ strExc e ++ "s"), c) := by
  simp only [translate_core, hfind, hemp, hrun]
  simp

/-- C5 (amended): all-or-nothing batch semantics — a successful result
requires every (target, segment) pair to have been processed successfully,
so no partial batch is ever returned — and an exception at any reached
(segment, target) translation step aborts the whole request with the engine
error `Cannot translate text: {str(e)}s` built from the exception text
(which need not name the failing input text). -/
theorem batch_all_or_nothing
    (C : Ctx) (source_lang : String) (tspec : TargetSpec)
    (src_texts : List String) (nalt : Nat) :
    (∀ r cnt, translate_core C source_lang tspec src_texts nalt = (.ok r, cnt) →
        ∀ srcL, C.languages.find? (fun l => l.code ==
            (detected_of (detect_translatable src_texts) source_lang).1) = some srcL →
        ∀ t ∈ targets_of C.languages tspec, ∀ text ∈ src_texts,
          ∃ tt alts cseg, process_segment C srcL t (detect_translatable src_texts)
              nalt text = (.ok (tt, alts), cseg))
    ∧ (∀ srcL, C.languages.find? (fun l => l.code ==
          (detected_of (detect_translatable src_texts) source_lang).1) = some srcL →
        (∃ t ∈ targets_of C.languages tspec, ∃ text ∈ src_texts, ∃ e cseg,
          process_segment C srcL t (detect_translatable src_texts) nalt text
            = (.error e, cseg)) →
        ∃ e cnt, translate_core C source_lang tspec src_texts nalt
          = (.error (500, "Cannot translate text: " ++ strExc e ++ "s"), cnt)) := by
  constructor
  · intro r cnt hok srcL hfind t ht text htext
    rcases translate_core_ok_inv hok with ⟨srcL2, hfind2, hemp, hrun, hdet⟩
    have hsame : srcL2 = srcL := by
      rw [hfind] at hfind2
      exact (Option.some.injEq _ _ ▸ hfind2).symm
    subst hsame
    rcases run_targets_ok_all hrun t ht with ⟨outs, altss, c1, hpt⟩
    exact process_target_ok_all_seg hpt text htext
  · rintro srcL hfind ⟨t, ht, text, htext, e0, cseg0, hseg⟩
    have hfail : ∃ t0 ∈ targets_of C.languages tspec, ∃ e c1,
        process_target C srcL t0 (detect_translatable src_texts) nalt src_texts
          = (.error e, c1) :=
      ⟨t, ht, process_target_error_of_seg ⟨text, htext, e0, cseg0, hseg⟩⟩
    rcases @run_targets_error_of_target C srcL (detect_translatable src_texts)
        nalt src_texts (targets_of C.languages tspec) [] [] 0 hfail
      with ⟨e, cc, hrun⟩
    have hemp : (targets_of C.languages tspec).isEmpty = false := by
      cases htg : targets_of C.languages tspec with
      | nil =>
        rw [htg] at ht
        exact absurd ht (List.not_mem_nil t)
      | cons a rest => rfl
    exact ⟨e, cc, translate_core_error_of_run hfind hemp hrun⟩

/-- A concrete engine that always raises `boom`. -/
def wTrFail : Translator := fun _ _ => .error ("boom")

/-- A concrete context whose only translator (en→es) always raises. -/
def wCtxFail : Ctx :=
  ⟨[wEn, wEs],
   fun s t => if s.code = "en" ∧ t.code = "es" then some wTrFail else none,
   fun _ h => h, fun h => h⟩

/-- C5 counterexample: the batch-abort message is built only from the
raised exception's own text (`Cannot translate text: {str(e)}s`, line 457);
two requests failing on different segments produce the identical message,
so the error does not name the failing text as the claim states. -/
theorem engine_error_message_ignores_failing_text :
    (translate_core wCtxFail ("en") (.one ("es")) ["hello"] 0).1
      = .error (500, "Cannot translate text: booms")
    ∧ (translate_core wCtxFail ("en") (.one ("es")) ["goodbye"] 0).1
      = .error (500, "Cannot translate text: booms")
    ∧ ("hello" : String) ≠ "goodbye" :=
  ⟨rfl, rfl, by decide⟩

/-- Witness for C5 (amended): the concrete failing engine aborts the whole
request with the wrapped engine message. -/
theorem batch_all_or_nothing_witness :
    (wCtxFail.languages.find? (fun l => l.code ==
        (detected_of (detect_translatable ["hello"]) "en").1) = some wEn
      ∧ (∃ t ∈ targets_of wCtxFail.languages (.one ("es")),
          ∃ text ∈ (["hello"] : List String), ∃ e cseg,
            process_segment wCtxFail wEn t (detect_translatable ["hello"]) 0 text
              = (.error e, cseg)))
    ∧ ∃ e cnt, translate_core wCtxFail ("en") (.one ("es")) ["hello"] 0
        = (.error (500, "Cannot translate text: " ++ strExc e ++ "s"), cnt) :=
  ⟨⟨rfl, ⟨wEs, by decide, "hello", by simp, .engine ("boom"), 1, rfl⟩⟩,
   (batch_all_or_nothing wCtxFail ("en") (.one ("es")) ["hello"] 0).2 wEn rfl
     ⟨wEs, by decide, "hello", by simp, .engine ("boom"), 1, rfl⟩⟩

/-- C10: for all-non-translatable input the detected source is pinned to
`("en", 0)` regardless of the requested source code, and the capability
check runs from English: if English resolves from the registry but some
validated target has no English→target translator, the request fails with
an error (surfaced as a 500 through the catch-all) even though no
translation would have been performed. -/
theorem nontranslatable_detection_en
    (C : Ctx) (source_lang : String) (tspec : TargetSpec)
    (src_texts : List String) (nalt : Nat)
    (hnt : detect_translatable src_texts = false) :
    detected_of (detect_translatable src_texts) source_lang = ("en", 0)
    ∧ ∀ enL, C.languages.find? (fun l => l.code ==
          (detected_of (detect_translatable src_texts) source_lang).1) = some enL →
        src_texts ≠ [] →
        (∃ t ∈ targets_of C.languages tspec, C.get_translation enL t = none) →
        ∃ msg cnt, translate_core C source_lang tspec src_texts nalt
          = (.error (500, msg), cnt) := by
  constructor
  · rw [hnt]
    rfl
  · rintro enL hfind hne ⟨t, ht, hgt⟩
    rcases List.exists_mem_of_ne_nil _ hne with ⟨text0, htext0⟩
    have hseg := @process_segment_none C enL t (detect_translatable src_texts)
      nalt text0 hgt
    have hfail : ∃ t0 ∈ targets_of C.languages tspec, ∃ e c1,
        process_target C enL t0 (detect_translatable src_texts) nalt src_texts
          = (.error e, c1) :=
      ⟨t, ht, process_target_error_of_seg ⟨text0, htext0, _, 0, hseg⟩⟩
    rcases @run_targets_error_of_target C enL (detect_translatable src_texts)
        nalt src_texts (targets_of C.languages tspec) [] [] 0 hfail
      with ⟨e, cc, hrun⟩
    have hemp : (targets_of C.languages tspec).isEmpty = false := by
      cases htg : targets_of C.languages tspec with
      | nil =>
        rw [htg] at ht
        exact absurd ht (List.not_mem_nil t)
      | cons a rest => rfl
    exact ⟨_, cc, translate_core_error_of_run hfind hemp hrun⟩

/-- Witness for C10: an all-emoji request with requested source `de` and
target `en`, where no en→en translator exists. -/
theorem nontranslatable_detection_en_witness :
    (detect_translatable [wEmoji] = false
      ∧ wCtx.languages.find? (fun l => l.code ==
          (detected_of (detect_translatable [wEmoji]) "de").1) = some wEn
      ∧ ([wEmoji] : List String) ≠ []
      ∧ (∃ t ∈ targets_of wCtx.languages (.one ("en")),
          wCtx.get_translation wEn t = none))
    ∧ (detected_of (detect_translatable [wEmoji]) "de" = ("en", 0)
      ∧ ∃ msg cnt, translate_core wCtx ("de") (.one ("en")) [wEmoji] 0
          = (.error (500, msg), cnt)) :=
  ⟨⟨by decide, rfl, by simp, ⟨wEn, by decide, rfl⟩⟩,
   ⟨(nontranslatable_detection_en wCtx ("de") (.one ("en")) [wEmoji] 0 (by decide)).1,
    (nontranslatable_detection_en wCtx ("de") (.one ("en")) [wEmoji] 0 (by decide)).2
      wEn rfl (by simp) ⟨wEn, by decide, rfl⟩⟩⟩

/-- A concrete registry with no translator for any pair. -/
def wCtxNoPair : Ctx := ⟨[wEn, wEs], fun _ _ => none, fun _ h => h, fun h => h⟩

/-- C6 (code bug): a request whose target is unavailable from the source.
The handler builds the 400 abort naming both display names and codes (line
440), but raises it inside the `try` block, so the `except Exception`
catch-all (lines 456-457) re-surfaces it as a 500 engine failure instead of
the 400 BadRequest the spec requires. -/
theorem unavailable_pair_surfaces_500 :
    translate_core wCtxNoPair ("en") (.one ("es")) ["hello"] 0
      = (.error (500, "Cannot translate text: 400 Bad Request: Spanishs (ess) is not available as a target language from Englishs (ens)s"), 0) :=
  rfl

/-- A `q`/`target` request value: a string or a list of strings. -/
inductive PyReqVal where
  | s (v : String)
  | l (vs : List String)
deriving DecidableEq

/-- The raw `alternatives` value: a JSON number or a (form/JSON) string. -/
inductive AltV where
  | num (n : Int)
  | str (v : String)
deriving DecidableEq

/-- An ASCII whitespace character, as stripped by Python `int(string)`. -/
def isPySpace (c : Char) : Bool :=
  c.toNat = 32 || c.toNat = 9 || c.toNat = 10 || c.toNat = 13 ||
  c.toNat = 11 || c.toNat = 12

/-- Drop leading whitespace characters. -/
def dropSpaces : List Char → List Char
  | [] => []
  | c :: rest => if isPySpace c then dropSpaces rest else c :: rest

/-- Accumulate decimal digits left to right; any non-digit fails. -/
def parseDigitsAux : List Char → Nat → Option Nat
  | [], acc => some acc
  | c :: rest, acc =>
    if 48 ≤ c.toNat ∧ c.toNat ≤ 57 then
      parseDigitsAux rest (acc * 10 + (c.toNat - 48))
    else none

/-- A non-empty all-digit character run, as a number. -/
def parseDigits : List Char → Option Nat
  | [] => none
  | c :: rest => parseDigitsAux (c :: rest) 0

/-- Python `int(string)`: strip whitespace, optional sign, decimal digits;
anything else raises ValueError (`none`).  (PEP-515 underscores are not
modelled; no claim involves them.) -/
def py_int_of_string (s : String) : Option Int :=
  match dropSpaces ((dropSpaces s.data.reverse).reverse) with
  | [] => none
  | c :: rest =>
    if c.toNat = 45 then (parseDigits rest).map (fun n => -(n : Int))
    else if c.toNat = 43 then (parseDigits rest).map (fun n => (n : Int))
    else (parseDigits (c :: rest)).map (fun n => (n : Int))

/-- Python `int(x)` on the `alternatives` value: identity on a number,
string parse otherwise. -/
def py_int_of_alt : AltV → Option Int
  | .num n => some n
  | .str v => py_int_of_string v

/-- The `/translate` request parameters as extracted on lines 381-391. -/
structure RawReq where
  is_json : Bool
  q : Option PyReqVal
  source : Option String
  target : Option PyReqVal
  alternatives : Option AltV

/-- Python truthiness of an optional string-or-list value (`if not q`). -/
def truthy_val : Option PyReqVal → Bool
  | none => false
  | some (.s v) => !(v == "")
  | some (.l vs) => !(vs.isEmpty)

/-- Python truthiness of an optional string (`if not source_lang`). -/
def truthy_str : Option String → Bool
  | none => false
  | some v => !(v == "")

/-- Modelled from the spec: `iso2model` (imported from
`libretranslate.language`, which is not under `src/`) normalizes a language
code; the spec's validation story speaks of codes directly, so the
normalization is modelled as the identity, preserving a missing value. -/
def iso2model (x : Option String) : Option String := x

/-- Modelled from the spec: `iso2model` applied to the `target` value (a
code or list of codes), again as the identity. -/
def iso2model_target (x : Option PyReqVal) : Option PyReqVal := x

/-- Lines 381-403 of the `/translate` handler: parameter extraction and
validation, returning `num_alternatives`.  In the JSON branch (line 386)
`int(...)` is applied to the `alternatives` value immediately, so an
unparsable value raises an uncaught ValueError that the framework surfaces
as a generic 500; in the form branch the raw value is kept and the later
`int(...)` (line 401) is guarded by `except ValueError`, aborting 400.
The missing-parameter aborts of lines 393-398 run in between. -/
def translate_parse (r : RawReq) : Except (Nat × String) Nat :=
  let step1 : Except (Nat × String) AltV :=
    if r.is_json then
      match py_int_of_alt (r.alternatives.getD (.num 0)) with
      | none => .error (500, "Internal Server Error")
      | some n => .ok (.num n)
    else
      .ok (r.alternatives.getD (.num 0))
  match step1 with
  | .error e => .error e
  | .ok altv =>
    if truthy_val r.q = false then
      .error (400, "Invalid request: missing `q` parameter")
    else if truthy_str (iso2model r.source) = false then
      .error (400, "Invalid request: missing `source` parameter")
    else if truthy_val (iso2model_target r.target) = false then
      .error (400, "Invalid request: missing `target` parameter")
    else
      match py_int_of_alt altv with
      | none => .error (400, "Invalid request: `alternatives` parameter is not a number")
      | some n => .ok n.toNat

/-- C7 (code bug): for a JSON request a non-numeric `alternatives` raises
the line-386 `int()` ValueError before the guarded conversion of lines
400-403 is reached, surfacing a generic 500 instead of the 400
ValidationError the claim requires; the form branch defers the conversion
and gets the 400, and the missing-parameter checks abort 400 before any
engine call on both branches. -/
theorem json_nonnumeric_alternatives_uncaught :
    translate_parse ⟨true, some (.s ("hello")), some ("en"), some (.s ("es")), some (.str ("abc"))⟩
      = .error (500, "Internal Server Error")
    ∧ translate_parse ⟨false, some (.s ("hello")), some ("en"), some (.s ("es")), some (.str ("abc"))⟩
      = .error (400, "Invalid request: `alternatives` parameter is not a number")
    ∧ translate_parse ⟨true, none, some ("en"), some (.s ("es")), some (.num 0)⟩
      = .error (400, "Invalid request: missing `q` parameter")
    ∧ translate_parse ⟨false, some (.s ("hello")), none, some (.s ("es")), some (.num 0)⟩
      = .error (400, "Invalid request: missing `source` parameter")
    ∧ translate_parse ⟨false, some (.s ("hello")), some ("en"), none, some (.num 0)⟩
      = .error (400, "Invalid request: missing `target` parameter") :=
  ⟨rfl, rfl, rfl, rfl, rfl⟩

/-- Python `int(float)`: truncation toward zero, on exact rationals. -/
def py_int (q : Rat) : Int := if 0 ≤ q then ⌊q⌋ else ⌈q⌉

lemma py_int_intCast (z : Int) : py_int (z : Rat) = z := by
  unfold py_int
  split
  · exact Int.floor_intCast z
  · exact Int.ceil_intCast z

/-- The optional API-key directory: `lookup(key)` yields the principal's
`(request rate, char limit)` override pair. -/
abbrev ApiKeysDb := Option (String → Option (Rat × Option Rat))

/-- Python `get_req_limits` (lines 81-92): the principal's directory rate times
`db_multiplier` replaces the default limit when a db is configured, a
truthy API key is present and the lookup succeeds; the result is
`int(req_limit * multiplier)`. -/
def get_req_limits (default_limit : Rat) (db : ApiKeysDb) (api_key : Option String)
    (db_multiplier : Rat) (multiplier : Rat) : Int :=
  let req_limit : Rat :=
    match db with
    | none => default_limit
    | some lookup =>
      match api_key with
      | none => default_limit
      | some k =>
        if k = "" then default_limit
        else
          match lookup k with
          | none => default_limit
          | some lims => lims.1 * db_multiplier
  py_int (req_limit * multiplier)

/-- The configuration fields consumed by `get_routes_limits`. -/
structure RLArgs where
  req_limit : Int
  hourly_req_limit : Int
  hourly_req_limit_decay : Int
  daily_req_limit : Int
deriving DecidableEq

/-- Lines 111-114: a configured minute limit of `-1` becomes the large
sentinel before any scaling. -/
def default_req_limit (args : RLArgs) : Int :=
  if args.req_limit = -1 then 9999999999999 else args.req_limit

/-- The minute rule's numeric ceiling (line 117). -/
def minute_ceiling (args : RLArgs) (db : ApiKeysDb) (key : Option String) : Int :=
  get_req_limits (default_req_limit args) db key 1 1

/-- The nth hourly rule's numeric ceiling (lines 119-123): default limit
`hourly_req_limit * n`, db multiplier `int(60 * n)` (the
`LT_HOURLY_REQ_LIMIT_MULTIPLIER` environment variable is modelled at its
default 60), scale `decay = 0.75 ** (n - 1)`. -/
def hourly_ceiling (args : RLArgs) (db : ApiKeysDb) (key : Option String)
    (n : Nat) : Int :=
  get_req_limits ((args.hourly_req_limit : Rat) * n) db key ((60 : Rat) * n)
    ((3 / 4 : Rat) ^ (n - 1))

/-- The daily rule's numeric ceiling (line 126), with the
`LT_DAILY_REQ_LIMIT_MULTIPLIER` environment variable at its default 1440. -/
def daily_ceiling (args : RLArgs) (db : ApiKeysDb) (key : Option String) : Int :=
  get_req_limits (args.daily_req_limit : Rat) db key 1440 1

/-- The minute rule (lines 116-117): per-request label. -/
def minute_limits (args : RLArgs) (db : ApiKeysDb) (key : Option String) : String :=
  toString (minute_ceiling args db key) ++ " per minute"

/-- The nth hourly rule (lines 119-123): per-request label. -/
def hourly_limits (args : RLArgs) (n : Nat) (db : ApiKeysDb)
    (key : Option String) : String :=
  toString (hourly_ceiling args db key n) ++ " per (" ++ toString n ++ ") hour"

/-- The daily rule (lines 125-126): per-request label. -/
def daily_limits (args : RLArgs) (db : ApiKeysDb) (key : Option String) : String :=
  toString (daily_ceiling args db key) ++ " per day"

/-- Python `get_routes_limits` (lines 110-137): always the minute rule; when
`hourly_req_limit > 0`, one hourly rule for each `n` in
`range(1, hourly_req_limit_decay + 2)`; when `daily_req_limit > 0`, the
daily rule. -/
def get_routes_limits (args : RLArgs) :
    List (ApiKeysDb → Option String → String) :=
  [minute_limits args]
  ++ (if args.hourly_req_limit > 0 then
        (List.range' 1 (args.hourly_req_limit_decay + 1).toNat).map
          (fun n => hourly_limits args n)
      else [])
  ++ (if args.daily_req_limit > 0 then [daily_limits args] else [])

/-- C8 counterexample: with `hourlyLimit = 60` and no principal override,
the code's first hourly ceiling is `int(60 * 1 * 0.75^0) = 60`, not the
claimed `hourlyLimit × n × hourlyMultiplier(n) × 0.75^(n-1) = 3600`: the
`db_multiplier` (default `60 * n`) scales only a principal's directory
rate (line 90), never the default limit. -/
theorem hourly_ceiling_formula_counterexample :
    hourly_ceiling ⟨10, 60, 2, 0⟩ none none 1 = 60
    ∧ ((60 : Rat) * 1 * (60 * 1) * (3 / 4) ^ (1 - 1) = 3600)
    ∧ (60 : Int) ≠ 3600 := by
  refine ⟨?_, by norm_num, by decide⟩
  simp only [hourly_ceiling, get_req_limits, py_int]
  norm_num

/-- C8 (amended): when `hourlyLimit > 0` the builder emits exactly one
hourly rule per `n` in `1..hourlyDecaySteps+1` (plus the minute rule and an
optional daily rule); with no principal override the nth hourly ceiling is
`int(hourlyLimit × n × 0.75^(n-1))` — the hourly multiplier (default
`60 × n`) scales only a principal's directory rate — and for
`hourlyLimit = 60`, `hourlyDecaySteps = 2` the ceilings 60, 90, 101 satisfy
`ceiling(n+1)/ceiling(n) < (n+1)/n` for n = 1, 2. -/
theorem hourly_rules_amended (args : RLArgs)
    (key : Option String) (hpos : args.hourly_req_limit > 0) :
    (get_routes_limits args).length
      = 1 + (args.hourly_req_limit_decay + 1).toNat
        + (if args.daily_req_limit > 0 then 1 else 0)
    ∧ (∀ n : Nat, hourly_ceiling args none key n
        = py_int ((args.hourly_req_limit : Rat) * n * (3 / 4) ^ (n - 1)))
    ∧ hourly_ceiling ⟨0, 60, 2, 0⟩ none none 1 = 60
    ∧ hourly_ceiling ⟨0, 60, 2, 0⟩ none none 2 = 90
    ∧ hourly_ceiling ⟨0, 60, 2, 0⟩ none none 3 = 101
    ∧ ((90 : Rat) / 60 < 2 / 1) ∧ ((101 : Rat) / 90 < 3 / 2) := by
  refine ⟨?_, fun n => rfl, ?_, ?_, ?_, by norm_num, by norm_num⟩
  rotate_left
  · simp only [hourly_ceiling, get_req_limits, py_int]
    norm_num
  · simp only [hourly_ceiling, get_req_limits, py_int]
    norm_num
  · simp only [hourly_ceiling, get_req_limits, py_int]
    rw [if_pos (by norm_num)]
    rw [Int.floor_eq_iff]
    constructor <;> norm_num
  simp only [get_routes_limits, if_pos hpos, List.length_append,
    List.length_cons, List.length_nil, List.length_map, List.length_range']
  by_cases hd : args.daily_req_limit > 0
  · rw [if_pos hd, if_pos hd]
    simp
  · rw [if_neg hd, if_neg hd]
    simp

/-- Witness for C8 (amended): `hourlyLimit = 60`, `hourlyDecaySteps = 2`,
no daily rule, no principal override. -/
theorem hourly_rules_amended_witness :
    ((⟨10, 60, 2, 0⟩ : RLArgs).hourly_req_limit > 0)
    ∧ ((get_routes_limits ⟨10, 60, 2, 0⟩).length
        = 1 + (((⟨10, 60, 2, 0⟩ : RLArgs).hourly_req_limit_decay + 1).toNat
          + (if (⟨10, 60, 2, 0⟩ : RLArgs).daily_req_limit > 0 then 1 else 0))
      ∧ (∀ n : Nat, hourly_ceiling ⟨10, 60, 2, 0⟩ none none n
          = py_int (((⟨10, 60, 2, 0⟩ : RLArgs).hourly_req_limit : Rat) * n
              * (3 / 4) ^ (n - 1)))
      ∧ hourly_ceiling ⟨0, 60, 2, 0⟩ none none 1 = 60
      ∧ hourly_ceiling ⟨0, 60, 2, 0⟩ none none 2 = 90
      ∧ hourly_ceiling ⟨0, 60, 2, 0⟩ none none 3 = 101
      ∧ ((90 : Rat) / 60 < 2 / 1) ∧ ((101 : Rat) / 90 < 3 / 2)) := by
  refine ⟨by decide, ?_⟩
  have h := hourly_rules_amended ⟨10, 60, 2, 0⟩ none (by decide)
  exact ⟨by omega, h.2.1, h.2.2.1, h.2.2.2.1, h.2.2.2.2.1, h.2.2.2.2.2.1,
    h.2.2.2.2.2.2⟩

/-- C9 counterexample: with `hourly_req_limit = -1` and
`daily_req_limit = -1` the builder emits only the minute rule — the `-1`
tiers are skipped by the `> 0` guards (lines 130 and 134), not mapped to a
sentinel; only the minute tier's `-1` is sentinel-mapped (lines 112-114). -/
theorem unlimited_tiers_skipped_counterexample :
    get_routes_limits ⟨5, -1, 2, -1⟩ = [minute_limits ⟨5, -1, 2, -1⟩] :=
  rfl

/-- C9 (amended): only the minute tier maps a configured `-1` to the large
sentinel 9999999999999 (≥ 10^12) before scaling; a `-1` hourly or daily
limit causes that tier's rules to be absent from the built sequence. -/
theorem unlimited_sentinel_amended (args : RLArgs) :
    (args.req_limit = -1 →
        minute_ceiling args none none = 9999999999999
        ∧ (10 : Int) ^ 12 ≤ 9999999999999)
    ∧ (args.hourly_req_limit = -1 →
        get_routes_limits args
          = [minute_limits args]
            ++ (if args.daily_req_limit > 0 then [daily_limits args] else []))
    ∧ (args.daily_req_limit = -1 →
        get_routes_limits args
          = [minute_limits args]
            ++ (if args.hourly_req_limit > 0 then
                  (List.range' 1 (args.hourly_req_limit_decay + 1).toNat).map
                    (fun n => hourly_limits args n)
                else [])) := by
  refine ⟨?_, ?_, ?_⟩
  · intro h
    refine ⟨?_, by norm_num⟩
    simp only [minute_ceiling, get_req_limits, default_req_limit, if_pos h]
    rw [mul_one]
    exact py_int_intCast 9999999999999
  · intro h
    simp [get_routes_limits, h]
  · intro h
    simp [get_routes_limits, h]

/-- Witness for C9 (amended): all three tiers configured `-1`. -/
theorem unlimited_sentinel_amended_witness :
    ((⟨-1, -1, 0, -1⟩ : RLArgs).req_limit = -1
      ∧ (⟨-1, -1, 0, -1⟩ : RLArgs).hourly_req_limit = -1
      ∧ (⟨-1, -1, 0, -1⟩ : RLArgs).daily_req_limit = -1)
    ∧ ((minute_ceiling ⟨-1, -1, 0, -1⟩ none none = 9999999999999
        ∧ (10 : Int) ^ 12 ≤ 9999999999999)
      ∧ get_routes_limits ⟨-1, -1, 0, -1⟩
          = [minute_limits ⟨-1, -1, 0, -1⟩]
            ++ (if (⟨-1, -1, 0, -1⟩ : RLArgs).daily_req_limit > 0 then
                  [daily_limits ⟨-1, -1, 0, -1⟩] else [])
      ∧ get_routes_limits ⟨-1, -1, 0, -1⟩
          = [minute_limits ⟨-1, -1, 0, -1⟩]
            ++ (if (⟨-1, -1, 0, -1⟩ : RLArgs).hourly_req_limit > 0 then
                  (List.range' 1
                    (((⟨-1, -1, 0, -1⟩ : RLArgs).hourly_req_limit_decay + 1).toNat)).map
                    (fun n => hourly_limits ⟨-1, -1, 0, -1⟩ n)
                else [])) := by
  have h := unlimited_sentinel_amended ⟨-1, -1, 0, -1⟩
  exact ⟨⟨rfl, rfl, rfl⟩, ⟨h.1 rfl, h.2.1 rfl, h.2.2 rfl⟩⟩
